import Mathlib

/-
Verification development for the mining and orchestration pipeline of
code-change-miner, file src/vcs/traverse.py.

The Python source is shallowly embedded as executable Lean definitions:

* Strings are Lean strings; the byte-offset slicing that CPython performs in
  ast.get_source_segment is modelled with character offsets, which coincides
  with the source behaviour on ASCII source texts (all concrete inputs used
  here are ASCII).
* The Python ast module is an external collaborator.  Its parse function is a
  parameter (String to Option PyModule); a parse exception is modelled by
  the none result, which is what the bare except around ast.parse turns it
  into.  AST nodes are modelled by the attributes the pipeline reads: the
  statement kind, the declared name, the nested body, and the position
  attributes lineno / col_offset / end_lineno / end_col_offset.
* The external change-graph builder (changegraph.build_from_files) is a
  parameter returning Except; the Except.error case models a raised
  exception, and the try/except in _get_commit_change_graphs is the match on
  that value.  The builder reads the two temporary files that hold exactly
  the two method source spans, so it is modelled as a function of those two
  span texts plus the RepoInfo metadata.
* Side effects are made explicit as data: a TaskState records the in-memory
  buffer (change_graphs), the flushed pickle artifacts (stored, one list of
  graphs per written file), the log events emitted at the call sites the
  claims mention, and a trace of builder invocations (builderCalls), which
  makes the statement "the builder is invoked" propositional.
-/

namespace Traverse

/-! ## String helpers mirroring the CPython primitives used by traverse.py -/

/-- Python slicing s[n:]: drop the first n characters. -/
def strDrop (s : String) (n : Nat) : String := ⟨s.data.drop n⟩

/-- Python slicing s[:n]: take the first n characters. -/
def strTake (s : String) (n : Nat) : String := ⟨s.data.take n⟩

/-- Python str.strip(): remove leading and trailing whitespace. -/
def pyStrip (s : String) : String :=
  ⟨((s.data.dropWhile Char.isWhitespace).reverse.dropWhile Char.isWhitespace).reverse⟩

/-- Concatenation of a list of strings, as Python str.join with empty sep. -/
def strJoin (l : List String) : String := ⟨(l.map String.data).flatten⟩

def splitlinesAux : List Char → List Char → List String
  | [], acc => if acc.isEmpty then [] else [⟨acc.reverse⟩]
  | '\n' :: rest, acc => (⟨('\n' :: acc).reverse⟩ : String) :: splitlinesAux rest []
  | c :: rest, acc => splitlinesAux rest (c :: acc)

/-- CPython ast._splitlines_no_ff, for texts whose only line terminator is
the newline character: split into lines, keeping the terminator on each
line; an empty text yields no lines. -/
def splitlinesKeepEnds (s : String) : List String := splitlinesAux s.data []

/-- Python str.endswith. -/
def strEndsWith (s suffixStr : String) : Bool := suffixStr.data.isSuffixOf s.data

/-! ## AST position data and ast.get_source_segment -/

/-- The position attributes of a Python AST node, the only part of the node
object that traverse.py reads (lineno in the diagnostic log, all four in
ast.get_source_segment). lineno and col_offset are always present on CPython
nodes; the end positions are optional. -/
structure NodePos where
  lineno : Nat
  col_offset : Nat
  end_lineno : Option Nat
  end_col_offset : Option Nat
deriving DecidableEq

/-- CPython ast.get_source_segment(source, node) (padded=False), with the
IndexError raised by an out-of-range line index modelled as none: the only
caller, Method.get_source, wraps the call in a bare except that turns both
the explicit None return and a raised exception into a None result. -/
def getSourceSegment (source : String) (node : NodePos) : Option String :=
  match node.end_lineno, node.end_col_offset with
  | some el, some ec =>
    let lines := splitlinesKeepEnds source
    let l0 := node.lineno - 1
    let el0 := el - 1
    if l0 = el0 then
      match lines.get? l0 with
      | none => none
      | some line => some (strTake (strDrop line node.col_offset) (ec - node.col_offset))
    else
      match lines.get? l0, lines.get? el0 with
      | some firstLine, some lastLine =>
          some (strJoin (strDrop firstLine node.col_offset ::
            ((lines.drop (l0 + 1)).take (el0 - (l0 + 1)) ++ [strTake lastLine ec])))
      | _, _ => none
  | _, _ => none

/-! ## Method (class Method of traverse.py) -/

/-- Class Method.  The src field holds src.strip() of the full file source,
exactly as Method.__init__ stores it; ast holds the position attributes of
the extracted FunctionDef node. -/
structure Method where
  file_path : String
  ast : NodePos
  src : String
  name : String
  full_name : String
deriving DecidableEq

/-- Method.__init__(path, name, ast, src). -/
def Method.make (path nm : String) (node : NodePos) (src : String) : Method :=
  { file_path := path, ast := node, src := pyStrip src, name := nm, full_name := nm }

/-- Method.extend_path(self, pfx, separator): used only with the default
separator, the dot. -/
def Method.extend_path (m : Method) (pfx : String) : Method :=
  { m with full_name := pfx ++ "." ++ m.full_name }

/-- Method.get_source(self): ast.get_source_segment on the stripped source
stored in self.src, with any raised exception caught and turned into None.
The informational log emitted in that except branch is not traced. -/
def Method.get_source (m : Method) : Option String := getSourceSegment m.src m.ast

/-! ## Python statements and ASTMethodExtractor -/

mutual
/-- A Python statement as seen by ASTMethodExtractor: a function definition
(with its position attributes), a class definition (with its body), or any
other statement, for which the visitor dispatch falls back to generic_visit
and produces no methods. -/
inductive PyStmt : Type where
  | functionDef : String → NodePos → PyStmt
  | classDef : String → NodePos → PyBody → PyStmt
  | other : PyStmt

/-- The body of a module or class: a sequence of statements. -/
inductive PyBody : Type where
  | nil : PyBody
  | cons : PyStmt → PyBody → PyBody
end

/-- A parsed Python module (result of ast.parse in exec mode). -/
structure PyModule where
  body : PyBody

mutual
/-- ASTMethodExtractor.visit on one statement: visit_FunctionDef yields one
Method; visit_ClassDef collects the methods of the body and then extends the
path of each with the class name; any other statement yields nothing. -/
def visitStmt (path src : String) : PyStmt → List Method
  | .functionDef nm node => [Method.make path nm node src]
  | .classDef nm _ body => (visitBody path src body).map (fun m => m.extend_path nm)
  | .other => []

/-- The statement loop shared by visit_Module and visit_ClassDef: visit each
statement and append the non-empty results in order. -/
def visitBody (path src : String) : PyBody → List Method
  | .nil => []
  | .cons st rest => visitStmt path src st ++ visitBody path src rest
end

/-- ASTMethodExtractor(path, src).visit(module): dispatches to visit_Module,
which runs the statement loop on the module body. -/
def astExtract (path src : String) (m : PyModule) : List Method :=
  visitBody path src m.body

/-! ## Specification-side description of qualified names (for claim C1) -/

/-- Specification-side: the dot-joined sequence of a list of names. -/
def dotJoin : List String → String
  | [] => ""
  | [x] => x
  | x :: y :: rest => x ++ "." ++ dotJoin (y :: rest)

mutual
/-- Specification-side: every method declared in a statement, as the pair of
its enclosing class names (outermost first) and its bare name. -/
def declaredStmt : PyStmt → List (List String × String)
  | .functionDef nm _ => [([], nm)]
  | .classDef nm _ body => (declaredBody body).map (fun p => (nm :: p.1, p.2))
  | .other => []

/-- Specification-side: every method declared in a body, in order. -/
def declaredBody : PyBody → List (List String × String)
  | .nil => []
  | .cons st rest => declaredStmt st ++ declaredBody rest
end

/-! ## Logging -/

inductive LogLevel : Type where
  | debug | info | warning | error
deriving DecidableEq

/-- The log events emitted inside one commit task, one constructor per call
site, carrying the data interpolated into the message.  unableToBuild is the
diagnostic of the except branch around the builder call: repository path,
commit hash, qualified method name, and the source line of the old method. -/
inductive LogEvent : Type where
  | lookingAtCommit (hash : String)
  | unableToCompile
  | unableToBuild (repoPath commitHash methodName : String) (line : Nat)
  | storingGraphs (count : Nat)
  | storingGraphsFinished
deriving DecidableEq

/-- The level each call site passes to the logger. -/
def LogEvent.level : LogEvent → LogLevel
  | .lookingAtCommit _ => .info
  | .unableToCompile => .info
  | .unableToBuild _ _ _ _ => .error
  | .storingGraphs _ => .info
  | .storingGraphsFinished => .info

/-! ## Commit data model (the dictionaries built by _extract_commits) -/

/-- pydriller.domain.commit.ModificationType. -/
inductive ModificationType : Type where
  | ADD | COPY | RENAME | DELETE | MODIFY | UNKNOWN
deriving DecidableEq

/-- One entry of the modifications list of a materialized commit record:
change kind, the two paths and the two full source texts, each possibly
absent, exactly as _extract_commits copies them out of pydriller. -/
structure Modification where
  type : ModificationType
  old_src : Option String
  old_path : Option String
  new_src : Option String
  new_path : Option String
deriving DecidableEq

/-- The repo sub-dictionary of a commit record. -/
structure RepoDict where
  name : String
  path : String
  url : String
deriving DecidableEq

/-- One materialized commit record (the cut dictionary of _extract_commits). -/
structure Commit where
  num : Nat
  hash : String
  msg : String
  modifications : List Modification
  repo : RepoDict
deriving DecidableEq

/-- Class RepoInfo: the metadata bundle handed to the builder. -/
structure RepoInfo where
  repo_name : String
  repo_path : String
  repo_url : String
  commit_hash : String
  old_method : Method
  new_method : Method
deriving DecidableEq

/-- An opaque change graph produced by the external builder; the pipeline
never inspects it, so only an identity is carried. -/
structure ChangeGraph where
  id : Nat
deriving DecidableEq

/-- The external builder changegraph.build_from_files, as a function of the
contents of the two temporary files (the two method source spans) and the
RepoInfo metadata; Except.error models a raised exception. -/
abbrev Builder := String → String → RepoInfo → Except String ChangeGraph

/-- The external parser ast.parse in exec mode; none models a raised parse
exception (or a TypeError on a None source), which the bare except in
_extract_methods catches. -/
abbrev Parse := String → Option PyModule

/-! ## GitAnalyzer._extract_methods and _get_methods_mapping -/

/-- GitAnalyzer._extract_methods(file_path, src): on any exception from
ast.parse (including src being absent) return the empty list after an
informational log entry; otherwise run the extractor visitor. -/
def extract_methods (parse : Parse) (file_path : String) (src : Option String) :
    List Method × List LogEvent :=
  match src with
  | none => ([], [LogEvent.unableToCompile])
  | some s =>
    match parse s with
    | none => ([], [LogEvent.unableToCompile])
    | some m => (astExtract file_path s m, [])

/-- Assignment to a Python dict key: if the key is present, replace its value
in place (insertion order is kept); otherwise append the new entry.  Method
objects define no custom equality, so CPython keys the dict by object
identity; here distinct Method values model distinct objects. -/
def dictInsert (k v : Method) : List (Method × Method) → List (Method × Method)
  | [] => [(k, v)]
  | (k2, v2) :: rest =>
      if k2 = k then (k2, v) :: rest else (k2, v2) :: dictInsert k v rest

/-- Lookup of a key in the dict model. -/
def dictFind (l : List (Method × Method)) (k : Method) : Option Method :=
  match l with
  | [] => none
  | (k2, v) :: rest => if k2 = k then some v else dictFind rest k

/-- The inner loop of _get_methods_mapping: for one old method, scan all new
methods and assign the dict entry on every qualified-name match. -/
def innerMatchLoop (new_methods : List Method) (acc : List (Method × Method))
    (om : Method) : List (Method × Method) :=
  new_methods.foldl
    (fun acc2 nm => if om.full_name = nm.full_name then dictInsert om nm acc2 else acc2)
    acc

/-- GitAnalyzer._get_methods_mapping(old_methods, new_methods). -/
def get_methods_mapping (old_methods new_methods : List Method) :
    List (Method × Method) :=
  old_methods.foldl (innerMatchLoop new_methods) []

/-! ## GitAnalyzer._get_commit_change_graphs -/

/-- The explicit state of one commit task: the in-memory buffer
change_graphs, the flushed artifacts (one inner list per pickle file written
by _store_change_graphs), the emitted log events, and the trace of builder
invocations with the two span texts handed over. -/
structure TaskState where
  change_graphs : List ChangeGraph
  stored : List (List ChangeGraph)
  logs : List LogEvent
  builderCalls : List (String × String)
deriving DecidableEq

/-- The truthiness filter on one side of a pair: Python all([src, ...]) is
false when get_source returned None or an empty string. -/
def srcOk : Option String → Bool
  | none => false
  | some s => s != ""

/-- The guard at the head of the pair loop: both sides truthy and the two
texts different (the continue fires on not all([old, new]) or old == new). -/
def pairFilter (om nm : Method) : Bool :=
  srcOk om.get_source && srcOk nm.get_source && (om.get_source != nm.get_source)

/-- The RepoInfo constructed for one pair. -/
def mkRepoInfo (commit : Commit) (om nm : Method) : RepoInfo :=
  ⟨commit.repo.name, commit.repo.path, commit.repo.url, commit.hash, om, nm⟩

/-- One iteration of the pair loop: apply the guard; on pass, invoke the
builder on the two span texts; on a builder exception log the diagnostic and
continue; on success append the graph to the buffer and, once the buffer has
reached STORE_INTERVAL, flush it to a new artifact and clear it. -/
def processPair (N : Nat) (build : Builder) (commit : Commit)
    (s : TaskState) (p : Method × Method) : TaskState :=
  match p with
  | (om, nm) =>
    if pairFilter om nm then
      let os := om.get_source.getD ""
      let ns := nm.get_source.getD ""
      match build os ns (mkRepoInfo commit om nm) with
      | .error _ =>
          { s with
            builderCalls := s.builderCalls ++ [(os, ns)],
            logs := s.logs ++
              [LogEvent.unableToBuild commit.repo.path commit.hash om.full_name
                om.ast.lineno] }
      | .ok cg =>
          let buf := s.change_graphs ++ [cg]
          if N ≤ buf.length then
            { change_graphs := [],
              stored := s.stored ++ [buf],
              logs := s.logs ++ [LogEvent.storingGraphs buf.length,
                LogEvent.storingGraphsFinished],
              builderCalls := s.builderCalls ++ [(os, ns)] }
          else
            { s with
              change_graphs := buf,
              builderCalls := s.builderCalls ++ [(os, ns)] }
    else s

/-- The pair loop over the items of the methods mapping. -/
def processPairs (N : Nat) (build : Builder) (commit : Commit)
    (s : TaskState) (ps : List (Method × Method)) : TaskState :=
  ps.foldl (processPair N build commit) s

/-- The method pairs one modification contributes: nothing unless the change
kind is MODIFY and both paths end in .py, otherwise the items of the mapping
between the methods extracted from the two sides. -/
def modMethodPairs (parse : Parse) (mod : Modification) : List (Method × Method) :=
  if mod.type = ModificationType.MODIFY
      ∧ strEndsWith (mod.old_path.getD "") ".py" = true
      ∧ strEndsWith (mod.new_path.getD "") ".py" = true then
    get_methods_mapping
      (extract_methods parse (mod.old_path.getD "") mod.old_src).1
      (extract_methods parse (mod.new_path.getD "") mod.new_src).1
  else []

/-- One iteration of the modification loop: the two continue guards, then
extraction on both sides (whose informational logs are appended), then the
pair loop.  For a MODIFY modification pydriller always materializes both
paths, so reading the path defaults only pads the unreachable none case. -/
def processMod (N : Nat) (parse : Parse) (build : Builder) (commit : Commit)
    (s : TaskState) (mod : Modification) : TaskState :=
  if mod.type = ModificationType.MODIFY
      ∧ strEndsWith (mod.old_path.getD "") ".py" = true
      ∧ strEndsWith (mod.new_path.getD "") ".py" = true then
    let s1 := { s with logs := s.logs
      ++ (extract_methods parse (mod.old_path.getD "") mod.old_src).2
      ++ (extract_methods parse (mod.new_path.getD "") mod.new_src).2 }
    processPairs N build commit s1 (modMethodPairs parse mod)
  else s

/-- GitAnalyzer._get_commit_change_graphs(commit), with STORE_INTERVAL as the
parameter N: start with an empty buffer and the commit-start log entry, run
the modification loop, then flush any non-empty remainder of the buffer. -/
def get_commit_change_graphs (N : Nat) (parse : Parse) (build : Builder)
    (commit : Commit) : TaskState :=
  let s0 : TaskState :=
    { change_graphs := [], stored := [],
      logs := [LogEvent.lookingAtCommit commit.hash], builderCalls := [] }
  let s1 := commit.modifications.foldl (processMod N parse build commit) s0
  if s1.change_graphs = [] then s1
  else
    { s1 with
      change_graphs := [],
      stored := s1.stored ++ [s1.change_graphs],
      logs := s1.logs ++ [LogEvent.storingGraphs s1.change_graphs.length,
        LogEvent.storingGraphsFinished] }

/-- Whether one pair survives the whole per-pair path: it passes the guard
and the builder succeeds on it. -/
def pairSurvives (build : Builder) (commit : Commit) (p : Method × Method) : Bool :=
  match p with
  | (om, nm) =>
    pairFilter om nm &&
      (match build (om.get_source.getD "") (nm.get_source.getD "")
          (mkRepoInfo commit om nm) with
       | .ok _ => true
       | .error _ => false)

/-- The number of surviving pairs (builder successes) of one commit task. -/
def commitSurvivors (parse : Parse) (build : Builder) (commit : Commit) : Nat :=
  (commit.modifications.map
    (fun mod => ((modMethodPairs parse mod).filter (pairSurvives build commit)).length)).sum

/-- The artifacts a worker stores over a lifetime of several sequential
commit tasks: each task runs with its own fresh buffer, so the lifetime
output is the concatenation of the per-task outputs. -/
def workerArtifacts (N : Nat) (parse : Parse) (build : Builder)
    (commits : List Commit) : List (List ChangeGraph) :=
  (commits.map (fun c => (get_commit_change_graphs N parse build c).stored)).flatten

/-- The surviving pairs over a worker lifetime. -/
def workerSurvivors (parse : Parse) (build : Builder) (commits : List Commit) : Nat :=
  (commits.map (commitSurvivors parse build)).sum

/-! ## GitAnalyzer._extract_commits -/

/-- One commit as yielded by the pydriller mining collaborator: hash,
message, parent hashes, and the modification objects with their change type,
paths and full texts. -/
structure PydrillerCommit where
  hash : String
  msg : String
  parents : List String
  modifications : List Modification
deriving DecidableEq

/-- One iteration of the commit loop of _extract_commits: skip a commit
without parents (the continue at the top of the loop), otherwise append the
materialized self-contained record, numbered by its position in the output
list, with the modification fields copied out of the mining collaborator. -/
def commitCutStep (repo_name repo_path repo_url : String)
    (acc : List Commit) (c : PydrillerCommit) : List Commit :=
  if c.parents = [] then acc
  else acc ++ [{ num := acc.length + 1, hash := c.hash, msg := c.msg,
                 modifications := c.modifications,
                 repo := ⟨repo_name, repo_path, repo_url⟩ }]

/-- GitAnalyzer._extract_commits for one repository, as a function of the
commit sequence the mining collaborator yields. -/
def extract_commits (repo_name repo_path repo_url : String)
    (cs : List PydrillerCommit) : List Commit :=
  cs.foldl (commitCutStep repo_name repo_path repo_url) []

/-! ## Concrete inputs used by the witnesses and counterexamples -/

/-- Source text of a one-function file, first version. -/
def srcF1 : String := "def f():\n    return 1"

/-- Source text of a one-function file, second version. -/
def srcF2 : String := "def f():\n    return 2"

/-- A file that starts with a blank line, first version.  CPython parses it
with f at lines 2-3 and g at lines 4-5. -/
def src8old : String := "\ndef f():\n    return 1\ndef g():\n    return 2"

/-- The same file with the body of f changed. -/
def src8new : String := "\ndef f():\n    return 3\ndef g():\n    return 2"

/-- A concrete stand-in for ast.parse covering exactly the source texts used
in the witnesses, returning the syntax trees CPython produces for them (same
statements, same position attributes); everything else fails to parse. -/
def parseEx : Parse := fun s =>
  if s = srcF1 ∨ s = srcF2 then
    some ⟨.cons (.functionDef "f" ⟨1, 0, some 2, some 12⟩) .nil⟩
  else if s = src8old ∨ s = src8new then
    some ⟨.cons (.functionDef "f" ⟨2, 0, some 3, some 12⟩)
      (.cons (.functionDef "g" ⟨4, 0, some 5, some 12⟩) .nil)⟩
  else none

/-- A builder that always succeeds. -/
def buildOk : Builder := fun _ _ _ => .ok ⟨0⟩

/-- A repo record for the example commits. -/
def repoEx : RepoDict := ⟨"repo", "/repos/repo", "https://example.test/repo"⟩

/-- The MODIFY modification taking srcF1 to srcF2 in a.py. -/
def modF : Modification :=
  ⟨ModificationType.MODIFY, some srcF1, some "a.py", some srcF2, some "a.py"⟩

/-- A commit containing exactly the a.py modification. -/
def commitEx : Commit := ⟨1, "c1hash", "first", [modF], repoEx⟩

/-- A second commit containing the same kind of modification. -/
def commitEx2 : Commit := ⟨2, "c2hash", "second", [modF], repoEx⟩

/-- The MODIFY modification on the blank-line-first file b.py. -/
def mod8 : Modification :=
  ⟨ModificationType.MODIFY, some src8old, some "b.py", some src8new, some "b.py"⟩

/-- A commit containing exactly the b.py modification. -/
def commit8 : Commit := ⟨1, "c8hash", "eighth", [mod8], repoEx⟩

/-- A task state with nothing accumulated. -/
def emptyTask : TaskState := ⟨[], [], [], []⟩

/-- Source text of a module defining class Outer containing class Inner
containing method run. -/
def srcOuter : String :=
  "class Outer:\n    class Inner:\n        def run(self):\n            pass"

/-- The syntax tree CPython produces for srcOuter. -/
def outerInnerModule : PyModule :=
  ⟨.cons
    (.classDef "Outer" ⟨1, 0, some 4, some 16⟩
      (.cons
        (.classDef "Inner" ⟨2, 4, some 4, some 16⟩
          (.cons (.functionDef "run" ⟨3, 8, some 4, some 16⟩) .nil))
        .nil))
    .nil⟩

/-- The Method the extractor builds for f in srcF1. -/
def mF1 : Method := Method.make "a.py" "f" ⟨1, 0, some 2, some 12⟩ srcF1

/-- The Method the extractor builds for f in srcF2. -/
def mF2 : Method := Method.make "a.py" "f" ⟨1, 0, some 2, some 12⟩ srcF2

/-- Source of a one-function file defining g, first version. -/
def srcG1 : String := "def g():\n    return 1"

/-- Source of a one-function file defining g, second version. -/
def srcG2 : String := "def g():\n    return 2"

/-- The Method for g in srcG1. -/
def mG1 : Method := Method.make "a.py" "g" ⟨1, 0, some 2, some 12⟩ srcG1

/-- The Method for g in srcG2. -/
def mG2 : Method := Method.make "a.py" "g" ⟨1, 0, some 2, some 12⟩ srcG2

/-- A builder that raises exactly on the g pair (its old span text is srcG1)
and succeeds on everything else. -/
def buildSel : Builder := fun o _ _ =>
  if o = srcG1 then Except.error "boom" else Except.ok ⟨7⟩

/-- A duplicate-name new Method, first occurrence. -/
def nDup1 : Method := Method.make "a.py" "f" ⟨1, 0, some 2, some 12⟩ srcF2

/-- A duplicate-name new Method, second occurrence (a later definition of
the same qualified name at another position). -/
def nDup2 : Method := Method.make "a.py" "f" ⟨3, 0, some 4, some 12⟩ srcF2

/-- Two distinct old Methods sharing a qualified name (a duplicate
definition on the old side). -/
def oDup1 : Method := Method.make "a.py" "f" ⟨1, 0, some 2, some 12⟩ srcF1

/-- Second distinct old Method with the same qualified name. -/
def oDup2 : Method := Method.make "a.py" "f" ⟨5, 0, some 6, some 12⟩ srcF1

/-- An ADD modification (new file), which the kind guard must skip. -/
def modAdd : Modification :=
  ⟨ModificationType.ADD, none, none, some srcF1, some "a.py"⟩

/-- A pydriller history of two commits, the first of which is a root commit. -/
def csEx : List PydrillerCommit :=
  [⟨"h0", "root", [], [modF]⟩, ⟨"h1", "child", ["h0"], [modF]⟩]

/-- The single record _extract_commits materializes from csEx. -/
def rEx : Commit := ⟨1, "h1", "child", [modF], ⟨"n", "/p", "u"⟩⟩

/-- First-some choice on options, used to state the matcher lookup lemmas. -/
def optOr {α : Type} : Option α → Option α → Option α
  | some a, _ => some a
  | none, b => b

/-! ## Qualified names (claim C1) -/

theorem dotJoin_cons (x : String) (xs : List String) (h : xs ≠ []) :
    dotJoin (x :: xs) = x ++ "." ++ dotJoin xs := by
  cases xs with
  | nil => exact absurd rfl h
  | cons y ys => rfl

mutual
theorem visitStmt_full_names (path src : String) (st : PyStmt) :
    (visitStmt path src st).map Method.full_name
      = (declaredStmt st).map (fun p => dotJoin (p.1 ++ [p.2])) := by
  cases st with
  | functionDef nm node =>
      simp [visitStmt, declaredStmt, Method.make, dotJoin]
  | classDef nm node body =>
      have ih := visitBody_full_names path src body
      simp only [visitStmt, declaredStmt]
      calc ((visitBody path src body).map (fun m => m.extend_path nm)).map Method.full_name
          = (visitBody path src body).map (fun m => nm ++ "." ++ m.full_name) := by
            simp [List.map_map, Method.extend_path, Function.comp]
        _ = ((visitBody path src body).map Method.full_name).map
              (fun s => nm ++ "." ++ s) := by simp [List.map_map, Function.comp]
        _ = ((declaredBody body).map (fun p => dotJoin (p.1 ++ [p.2]))).map
              (fun s => nm ++ "." ++ s) := by rw [ih]
        _ = (declaredBody body).map
              (fun p => dotJoin ((nm :: p.1) ++ [p.2])) := by
            simp only [List.map_map]
            refine List.map_congr_left ?_
            intro p _
            simp only [Function.comp]
            rw [List.cons_append, dotJoin_cons nm (p.1 ++ [p.2]) (by simp)]
        _ = ((declaredBody body).map (fun p => (nm :: p.1, p.2))).map
              (fun p => dotJoin (p.1 ++ [p.2])) := by
            simp [List.map_map, Function.comp]
  | other =>
      simp [visitStmt, declaredStmt]

theorem visitBody_full_names (path src : String) (b : PyBody) :
    (visitBody path src b).map Method.full_name
      = (declaredBody b).map (fun p => dotJoin (p.1 ++ [p.2])) := by
  cases b with
  | nil => simp [visitBody, declaredBody]
  | cons st rest =>
      have h1 := visitStmt_full_names path src st
      have h2 := visitBody_full_names path src rest
      simp [visitBody, declaredBody, h1, h2]
end

/-- C1: for every extracted Method, its qualified name equals the dot-joined
sequence of its enclosing class names, outermost first, followed by its own
bare name; in particular the module defining class Outer containing class
Inner containing method run extracts exactly the qualified name
Outer.Inner.run. -/
theorem qualified_name_is_dot_joined_class_path :
    (∀ (path src : String) (body : PyBody),
        (visitBody path src body).map Method.full_name
          = (declaredBody body).map (fun p => dotJoin (p.1 ++ [p.2])))
      ∧ (astExtract "m.py" srcOuter outerInnerModule).map Method.full_name
          = ["Outer.Inner.run"] :=
  ⟨fun path src body => visitBody_full_names path src body, by decide⟩

/-! ## Matcher lemmas (claims C9 and C10) -/

theorem optOr_idem {α : Type} (a b : Option α) : optOr a (optOr a b) = optOr a b := by
  cases a <;> rfl

theorem getLast?_cons_or {α : Type} (a : α) (l : List α) :
    (a :: l).getLast? = optOr l.getLast? (some a) := by
  cases l with
  | nil => rfl
  | cons b t =>
      rw [List.getLast?_cons_cons]
      have h : (b :: t).getLast? = some ((b :: t).getLast (by simp)) :=
        List.getLast?_eq_getLast _ (by simp)
      rw [h]; rfl

theorem dictFind_dictInsert_self (k v : Method) (l : List (Method × Method)) :
    dictFind (dictInsert k v l) k = some v := by
  induction l with
  | nil => simp [dictInsert, dictFind]
  | cons hd t ih =>
      obtain ⟨k2, v2⟩ := hd
      by_cases hk : k2 = k
      · simp [dictInsert, dictFind, hk]
      · simp [dictInsert, dictFind, hk, ih]

theorem dictFind_dictInsert_other (k v k2 : Method) (l : List (Method × Method))
    (h : k ≠ k2) :
    dictFind (dictInsert k v l) k2 = dictFind l k2 := by
  induction l with
  | nil => simp [dictInsert, dictFind, h]
  | cons hd t ih =>
      obtain ⟨k3, v3⟩ := hd
      by_cases hk : k3 = k
      · subst hk; simp [dictInsert, dictFind, h]
      · simp [dictInsert, dictFind, hk, ih]

theorem dictFind_mem (l : List (Method × Method)) (k v : Method)
    (h : dictFind l k = some v) : (k, v) ∈ l := by
  induction l with
  | nil => simp [dictFind] at h
  | cons hd t ih =>
      obtain ⟨k2, v2⟩ := hd
      by_cases hk : k2 = k
      · subst hk
        simp [dictFind] at h
        simp [h]
      · simp [dictFind, hk] at h
        exact List.mem_cons_of_mem _ (ih h)

theorem innerMatchLoop_find_other (news : List Method) (acc : List (Method × Method))
    (om o : Method) (h : om ≠ o) :
    dictFind (innerMatchLoop news acc om) o = dictFind acc o := by
  induction news generalizing acc with
  | nil => rfl
  | cons n t ih =>
      have hstep : innerMatchLoop (n :: t) acc om
          = innerMatchLoop t
              (if om.full_name = n.full_name then dictInsert om n acc else acc) om := rfl
      rw [hstep, ih]
      by_cases hn : om.full_name = n.full_name
      · rw [if_pos hn, dictFind_dictInsert_other om n o acc h]
      · rw [if_neg hn]

theorem innerMatchLoop_find_self (news : List Method) (acc : List (Method × Method))
    (om : Method) :
    dictFind (innerMatchLoop news acc om) om
      = optOr (news.filter (fun n => om.full_name == n.full_name)).getLast?
          (dictFind acc om) := by
  induction news generalizing acc with
  | nil => rfl
  | cons n t ih =>
      have hstep : innerMatchLoop (n :: t) acc om
          = innerMatchLoop t
              (if om.full_name = n.full_name then dictInsert om n acc else acc) om := rfl
      rw [hstep, ih]
      by_cases hn : om.full_name = n.full_name
      · rw [if_pos hn, dictFind_dictInsert_self,
          List.filter_cons_of_pos (by simpa using hn), getLast?_cons_or]
        cases (t.filter (fun n => om.full_name == n.full_name)).getLast? <;> rfl
      · rw [if_neg hn, List.filter_cons_of_neg (by simpa using hn)]

theorem mapping_find_not_mem (olds news : List Method) (acc : List (Method × Method))
    (o : Method) (h : o ∉ olds) :
    dictFind (olds.foldl (innerMatchLoop news) acc) o = dictFind acc o := by
  induction olds generalizing acc with
  | nil => rfl
  | cons a t ih =>
      rw [List.foldl_cons, ih _ (fun hm => h (List.mem_cons_of_mem a hm)),
        innerMatchLoop_find_other news acc a o
          (fun he => h (he ▸ List.mem_cons_self a t))]

theorem mapping_find_mem (olds news : List Method) (acc : List (Method × Method))
    (o : Method) (h : o ∈ olds) :
    dictFind (olds.foldl (innerMatchLoop news) acc) o
      = optOr (news.filter (fun n => o.full_name == n.full_name)).getLast?
          (dictFind acc o) := by
  induction olds generalizing acc with
  | nil => cases h
  | cons a t ih =>
      rw [List.foldl_cons]
      by_cases hmem : o ∈ t
      · rw [ih _ hmem]
        by_cases ha : a = o
        · subst ha
          rw [innerMatchLoop_find_self, optOr_idem]
        · rw [innerMatchLoop_find_other news acc a o ha]
      · have ha : a = o := by
          rcases List.mem_cons.mp h with h1 | h2
          · exact h1.symm
          · exact absurd h2 hmem
        rw [ha, mapping_find_not_mem t news _ o hmem, innerMatchLoop_find_self]

theorem getMethodsMapping_find (old_methods new_methods : List Method) (o : Method)
    (h : o ∈ old_methods) :
    dictFind (get_methods_mapping old_methods new_methods) o
      = (new_methods.filter (fun n => o.full_name == n.full_name)).getLast? := by
  unfold get_methods_mapping
  rw [mapping_find_mem old_methods new_methods [] o h]
  cases (new_methods.filter (fun n => o.full_name == n.full_name)).getLast? <;> rfl

/-- C9: for every old Method in the old list, the matcher maps it to the last
new Method in iteration order whose qualified name matches, for all inputs;
in particular, when several new Methods share the qualified name, the last
seen wins. -/
theorem matcher_last_seen_wins (old_methods new_methods : List Method) (o : Method)
    (h : o ∈ old_methods) :
    dictFind (get_methods_mapping old_methods new_methods) o
      = (new_methods.filter (fun n => o.full_name == n.full_name)).getLast? :=
  getMethodsMapping_find old_methods new_methods o h

/-- C9 witness: an old method f against two new methods that both carry the
qualified name f resolves to the last one of the two. -/
theorem matcher_last_seen_wins_witness :
    mF1 ∈ [mF1]
      ∧ dictFind (get_methods_mapping [mF1] [nDup1, nDup2]) mF1
          = ([nDup1, nDup2].filter (fun n => mF1.full_name == n.full_name)).getLast?
      ∧ dictFind (get_methods_mapping [mF1] [nDup1, nDup2]) mF1 = some nDup2 :=
  ⟨by decide, matcher_last_seen_wins [mF1] [nDup1, nDup2] mF1 (by decide), by decide⟩

/-- C10: the mapping is keyed by old Method instance, not by qualified name:
two distinct old Methods sharing a qualified name that matches some new
Method each appear as their own entry, both mapped to the same winning new
Method. -/
theorem mapping_keyed_by_old_instance (old_methods new_methods : List Method)
    (o1 o2 w : Method) (h1 : o1 ∈ old_methods) (h2 : o2 ∈ old_methods)
    (hne : o1 ≠ o2) (hname : o1.full_name = o2.full_name)
    (hw : (new_methods.filter (fun n => o1.full_name == n.full_name)).getLast?
        = some w) :
    (o1, w) ∈ get_methods_mapping old_methods new_methods
      ∧ (o2, w) ∈ get_methods_mapping old_methods new_methods := by
  constructor
  · exact dictFind_mem _ _ _ ((getMethodsMapping_find old_methods new_methods o1 h1).trans hw)
  · refine dictFind_mem _ _ _ ((getMethodsMapping_find old_methods new_methods o2 h2).trans ?_)
    rw [← hname]
    exact hw

/-- C10 witness: two distinct old methods named f, matched against one new
method named f, both receive their own entry with the same value. -/
theorem mapping_keyed_by_old_instance_witness :
    oDup1 ∈ [oDup1, oDup2] ∧ oDup2 ∈ [oDup1, oDup2] ∧ oDup1 ≠ oDup2
      ∧ oDup1.full_name = oDup2.full_name
      ∧ ([nDup1].filter (fun n => oDup1.full_name == n.full_name)).getLast? = some nDup1
      ∧ ((oDup1, nDup1) ∈ get_methods_mapping [oDup1, oDup2] [nDup1]
          ∧ (oDup2, nDup1) ∈ get_methods_mapping [oDup1, oDup2] [nDup1]) :=
  ⟨by decide, by decide, by decide, by decide, by decide,
    mapping_keyed_by_old_instance [oDup1, oDup2] [nDup1] oDup1 oDup2 nDup1
      (by decide) (by decide) (by decide) (by decide) (by decide)⟩

/-! ## Pair guard (claim C3) -/

/-- C3: the builder runs for a matched pair only if both extracted source
texts are non-empty and differ.  Whenever either side is absent or empty, or
the two texts are identical, the pair loop iteration leaves the task state
untouched: no builder invocation is traced, no ChangeGraph is buffered or
stored, and nothing is logged. -/
theorem no_builder_call_without_nonempty_diff (N : Nat) (build : Builder)
    (commit : Commit) (s : TaskState) (om nm : Method)
    (h : om.get_source = none ∨ om.get_source = some "" ∨ nm.get_source = none
        ∨ nm.get_source = some "" ∨ om.get_source = nm.get_source) :
    processPair N build commit s (om, nm) = s := by
  have hf : pairFilter om nm = false := by
    rcases h with h | h | h | h | h <;> simp [pairFilter, srcOk, h]
  simp [processPair, hf]

/-- C3 witness: a pair whose two sides carry identical source text is
dropped without any state change. -/
theorem no_builder_call_without_nonempty_diff_witness :
    (mF1.get_source = none ∨ mF1.get_source = some "" ∨ mF1.get_source = none
        ∨ mF1.get_source = some "" ∨ mF1.get_source = mF1.get_source)
      ∧ processPair 300 buildOk commitEx emptyTask (mF1, mF1) = emptyTask :=
  ⟨Or.inr (Or.inr (Or.inr (Or.inr rfl))),
    no_builder_call_without_nonempty_diff 300 buildOk commitEx emptyTask mF1 mF1
      (Or.inr (Or.inr (Or.inr (Or.inr rfl))))⟩

/-! ## Modification guard (claim C6) -/

/-- C6: a modification whose change kind is not MODIFY, or whose old or new
path does not end in .py, is skipped before extraction: the task state is
unchanged (so extraction is never run and nothing is logged) and the
modification contributes no method pair. -/
theorem non_modify_modifications_skipped (N : Nat) (parse : Parse) (build : Builder)
    (commit : Commit) (s : TaskState) (mod : Modification)
    (h : mod.type ≠ ModificationType.MODIFY
        ∨ strEndsWith (mod.old_path.getD "") ".py" = false
        ∨ strEndsWith (mod.new_path.getD "") ".py" = false) :
    processMod N parse build commit s mod = s ∧ modMethodPairs parse mod = [] := by
  have hc : ¬(mod.type = ModificationType.MODIFY
      ∧ strEndsWith (mod.old_path.getD "") ".py" = true
      ∧ strEndsWith (mod.new_path.getD "") ".py" = true) := by
    rcases h with h | h | h <;> simp [h]
  exact ⟨by simp [processMod, hc], by simp [modMethodPairs, hc]⟩

/-- C6 witness: an ADD modification is skipped entirely. -/
theorem non_modify_modifications_skipped_witness :
    (modAdd.type ≠ ModificationType.MODIFY
        ∨ strEndsWith (modAdd.old_path.getD "") ".py" = false
        ∨ strEndsWith (modAdd.new_path.getD "") ".py" = false)
      ∧ processMod 300 parseEx buildOk commitEx emptyTask modAdd = emptyTask
      ∧ modMethodPairs parseEx modAdd = [] :=
  ⟨Or.inl (by decide),
    (non_modify_modifications_skipped 300 parseEx buildOk commitEx emptyTask modAdd
      (Or.inl (by decide))).1,
    (non_modify_modifications_skipped 300 parseEx buildOk commitEx emptyTask modAdd
      (Or.inl (by decide))).2⟩

/-! ## Parse failure (claim C7) -/

/-- C7: when the parser fails on a source text, extraction returns the empty
method list and every log entry it emits is informational; being a total
function into a pair, it raises nothing past the extraction boundary, so
only the affected side degrades to empty. -/
theorem parse_failure_yields_empty_and_info_logs (parse : Parse) (path s : String)
    (h : parse s = none) :
    (extract_methods parse path (some s)).1 = []
      ∧ ∀ e ∈ (extract_methods parse path (some s)).2, e.level = LogLevel.info := by
  constructor
  · simp [extract_methods, h]
  · intro e he
    simp [extract_methods, h] at he
    simp [he, LogEvent.level]

/-- C7 witness: a malformed source text fails to parse, and extraction
degrades to the empty list with an informational log entry. -/
theorem parse_failure_yields_empty_and_info_logs_witness :
    parseEx "def broken(:" = none
      ∧ (extract_methods parseEx "a.py" (some "def broken(:")).1 = []
      ∧ ∀ e ∈ (extract_methods parseEx "a.py" (some "def broken(:")).2,
          e.level = LogLevel.info :=
  ⟨by rfl,
    (parse_failure_yields_empty_and_info_logs parseEx "a.py" "def broken(:"
      (by rfl)).1,
    (parse_failure_yields_empty_and_info_logs parseEx "a.py" "def broken(:"
      (by rfl)).2⟩

/-! ## Root commits (claim C5) -/

theorem extract_commits_mem_aux (rn rp ru : String) (cs : List PydrillerCommit)
    (acc : List Commit) :
    ∀ r ∈ cs.foldl (commitCutStep rn rp ru) acc,
      r ∈ acc ∨ ∃ c ∈ cs, c.parents ≠ [] ∧ r.hash = c.hash := by
  induction cs generalizing acc with
  | nil => intro r hr; exact Or.inl hr
  | cons c t ih =>
      intro r hr
      rw [List.foldl_cons] at hr
      rcases ih _ r hr with hacc | ⟨c2, hc2, hp2, hh2⟩
      · unfold commitCutStep at hacc
        by_cases hp : c.parents = []
        · rw [if_pos hp] at hacc
          exact Or.inl hacc
        · rw [if_neg hp] at hacc
          rcases List.mem_append.mp hacc with h1 | h2
          · exact Or.inl h1
          · refine Or.inr ⟨c, List.mem_cons_self c t, hp, ?_⟩
            simp at h2
            rw [h2]
      · exact Or.inr ⟨c2, List.mem_cons_of_mem c hc2, hp2, hh2⟩

theorem extract_commits_filter_aux (rn rp ru : String) (cs : List PydrillerCommit)
    (acc : List Commit) :
    cs.foldl (commitCutStep rn rp ru) acc
      = (cs.filter (fun c => !c.parents.isEmpty)).foldl (commitCutStep rn rp ru) acc := by
  induction cs generalizing acc with
  | nil => rfl
  | cons c t ih =>
      rw [List.foldl_cons]
      by_cases hp : c.parents = []
      · rw [List.filter_cons_of_neg (by simp [hp]),
          show commitCutStep rn rp ru acc c = acc from by simp [commitCutStep, hp]]
        exact ih acc
      · rw [List.filter_cons_of_pos (by simp [List.isEmpty_iff, hp]), List.foldl_cons]
        exact ih (commitCutStep rn rp ru acc c)

/-- C5: commits with zero parents are never materialized: every extracted
commit record stems from an input commit with at least one parent, and the
extraction result is unchanged when root commits are removed from the
input, so no task is ever dispatched for a root commit. -/
theorem root_commits_excluded (rn rp ru : String) (cs : List PydrillerCommit) :
    (∀ r ∈ extract_commits rn rp ru cs, ∃ c ∈ cs, c.parents ≠ [] ∧ r.hash = c.hash)
      ∧ extract_commits rn rp ru cs
          = extract_commits rn rp ru (cs.filter (fun c => !c.parents.isEmpty)) := by
  constructor
  · intro r hr
    rcases extract_commits_mem_aux rn rp ru cs [] r hr with h | h
    · cases h
    · exact h
  · exact extract_commits_filter_aux rn rp ru cs []

/-- C5 witness: a two-commit history whose first commit is a root commit
materializes exactly one record, which stems from the parented commit. -/
theorem root_commits_excluded_witness :
    rEx ∈ extract_commits "n" "/p" "u" csEx
      ∧ ∃ c ∈ csEx, c.parents ≠ [] ∧ rEx.hash = c.hash :=
  ⟨by decide, (root_commits_excluded "n" "/p" "u" csEx).1 rEx (by decide)⟩

/-! ## Stripped-source span misalignment (claim C8) -/

/-- C8 evaluation: Method stores the stripped file source but keeps the
position attributes that CPython computed against the original text, so for
a file that starts with a blank line the span handed to the builder is not
the exact source segment of the method.  On commit8 the builder is invoked
with the text of the region following the method instead of the method
itself; the exact segments recovered against the original full texts
differ from what was handed over. -/
theorem stripped_source_misalignment :
    (get_commit_change_graphs 300 parseEx buildOk commit8).builderCalls
        = [("    return 1\ndef g():\n", "    return 3\ndef g():\n")]
      ∧ getSourceSegment src8old ⟨2, 0, some 3, some 12⟩ = some "def f():\n    return 1"
      ∧ getSourceSegment src8new ⟨2, 0, some 3, some 12⟩ = some "def f():\n    return 3"
      ∧ (("    return 1\ndef g():\n" : String) ≠ "def f():\n    return 1"
          ∧ ("    return 3\ndef g():\n" : String) ≠ "def f():\n    return 3") := by
  exact ⟨by decide, by decide, by decide, by decide, by decide⟩

/-! ## Worker-lifetime flush counting (claim C2, counterexample) -/

/-- C2 counterexample: the flush buffer is local to one commit task and is
flushed at the end of every commit, so the artifact count over a worker
lifetime is not the ceiling of lifetime survivors over the threshold.  A
worker with threshold 2 that processes two commits with one surviving pair
each stores 2 artifacts, not the ceiling of 2/2 = 1. -/
theorem worker_lifetime_flush_claim_false :
    workerSurvivors parseEx buildOk [commitEx, commitEx2] = 2
      ∧ (2 + 2 - 1) / 2 = 1
      ∧ (workerArtifacts 2 parseEx buildOk [commitEx, commitEx2]).length = 2
      ∧ (workerArtifacts 2 parseEx buildOk [commitEx, commitEx2]).length
          ≠ (workerSurvivors parseEx buildOk [commitEx, commitEx2] + 2 - 1) / 2 := by
  exact ⟨by decide, by decide, by decide, by decide⟩

/-! ## Flush counting within one commit task (claim C2, amended) -/

theorem processPair_tally (N : Nat) (build : Builder) (commit : Commit)
    (s : TaskState) (p : Method × Method) (hN : 1 ≤ N)
    (hbuf : s.change_graphs.length < N) (hstored : ∀ a ∈ s.stored, a.length = N) :
    (processPair N build commit s p).change_graphs.length < N
      ∧ (∀ a ∈ (processPair N build commit s p).stored, a.length = N)
      ∧ N * (processPair N build commit s p).stored.length
            + (processPair N build commit s p).change_graphs.length
        = N * s.stored.length + s.change_graphs.length
            + (if pairSurvives build commit p then 1 else 0) := by
  obtain ⟨om, nm⟩ := p
  by_cases hf : pairFilter om nm
  · cases hb : build (om.get_source.getD "") (nm.get_source.getD "")
        (mkRepoInfo commit om nm) with
    | error e =>
        have hs : pairSurvives build commit (om, nm) = false := by
          simp [pairSurvives, hb]
        simp only [processPair, hf, hb, hs, if_true, if_false]
        refine ⟨by simp [hbuf], by simpa using hstored, by simp⟩
    | ok cg =>
        have hs : pairSurvives build commit (om, nm) = true := by
          simp [pairSurvives, hf, hb]
        by_cases hflush : N ≤ s.change_graphs.length + 1
        · have hlen : s.change_graphs.length + 1 = N := Nat.le_antisymm hbuf hflush
          refine ⟨?_, ?_, ?_⟩
          · simp [processPair, hf, hb, hflush]
            omega
          · intro a ha
            simp [processPair, hf, hb, hflush] at ha
            rcases ha with ha | ha
            · exact hstored a ha
            · rw [ha]
              simpa using hlen
          · simp [processPair, hf, hb, hflush, hs, Nat.mul_succ]
            omega
        · refine ⟨?_, ?_, ?_⟩
          · simp [processPair, hf, hb, hflush]
            omega
          · intro a ha
            simp [processPair, hf, hb, hflush] at ha
            exact hstored a ha
          · simp [processPair, hf, hb, hflush, hs]
            omega
  · have hs : pairSurvives build commit (om, nm) = false := by
      simp [pairSurvives, hf]
    simp only [processPair, hf, hs, if_false, Bool.false_eq_true, ite_false]
    refine ⟨hbuf, hstored, by simp⟩

theorem processPairs_tally (N : Nat) (build : Builder) (commit : Commit)
    (ps : List (Method × Method)) (s : TaskState) (hN : 1 ≤ N)
    (hbuf : s.change_graphs.length < N) (hstored : ∀ a ∈ s.stored, a.length = N) :
    (processPairs N build commit s ps).change_graphs.length < N
      ∧ (∀ a ∈ (processPairs N build commit s ps).stored, a.length = N)
      ∧ N * (processPairs N build commit s ps).stored.length
            + (processPairs N build commit s ps).change_graphs.length
        = N * s.stored.length + s.change_graphs.length
            + (ps.filter (pairSurvives build commit)).length := by
  induction ps generalizing s with
  | nil =>
      exact ⟨hbuf, hstored, by simp [processPairs]⟩
  | cons p t ih =>
      obtain ⟨h1, h2, h3⟩ := processPair_tally N build commit s p hN hbuf hstored
      obtain ⟨g1, g2, g3⟩ := ih (processPair N build commit s p) h1 h2
      have hstep : processPairs N build commit s (p :: t)
          = processPairs N build commit (processPair N build commit s p) t := rfl
      refine ⟨hstep ▸ g1, hstep ▸ g2, ?_⟩
      rw [hstep, g3, h3, List.filter_cons]
      by_cases hsv : pairSurvives build commit p
      · simp [hsv]
        try omega
      · simp [hsv]
        try omega

theorem processMod_tally (N : Nat) (parse : Parse) (build : Builder) (commit : Commit)
    (s : TaskState) (mod : Modification) (hN : 1 ≤ N)
    (hbuf : s.change_graphs.length < N) (hstored : ∀ a ∈ s.stored, a.length = N) :
    (processMod N parse build commit s mod).change_graphs.length < N
      ∧ (∀ a ∈ (processMod N parse build commit s mod).stored, a.length = N)
      ∧ N * (processMod N parse build commit s mod).stored.length
            + (processMod N parse build commit s mod).change_graphs.length
        = N * s.stored.length + s.change_graphs.length
            + ((modMethodPairs parse mod).filter (pairSurvives build commit)).length := by
  by_cases hc : mod.type = ModificationType.MODIFY
      ∧ strEndsWith (mod.old_path.getD "") ".py" = true
      ∧ strEndsWith (mod.new_path.getD "") ".py" = true
  · have hdef : processMod N parse build commit s mod
        = processPairs N build commit
            { s with logs := s.logs
                ++ (extract_methods parse (mod.old_path.getD "") mod.old_src).2
                ++ (extract_methods parse (mod.new_path.getD "") mod.new_src).2 }
            (modMethodPairs parse mod) := by
      unfold processMod
      rw [if_pos hc]
    rw [hdef]
    exact processPairs_tally N build commit (modMethodPairs parse mod) _ hN hbuf hstored
  · have hdef : processMod N parse build commit s mod = s := by
      unfold processMod
      rw [if_neg hc]
    have hpairs : modMethodPairs parse mod = [] := by
      unfold modMethodPairs
      rw [if_neg hc]
    rw [hdef, hpairs]
    exact ⟨hbuf, hstored, by simp⟩

theorem processMods_tally (N : Nat) (parse : Parse) (build : Builder) (commit : Commit)
    (mods : List Modification) (s : TaskState) (hN : 1 ≤ N)
    (hbuf : s.change_graphs.length < N) (hstored : ∀ a ∈ s.stored, a.length = N) :
    (mods.foldl (processMod N parse build commit) s).change_graphs.length < N
      ∧ (∀ a ∈ (mods.foldl (processMod N parse build commit) s).stored, a.length = N)
      ∧ N * (mods.foldl (processMod N parse build commit) s).stored.length
            + (mods.foldl (processMod N parse build commit) s).change_graphs.length
        = N * s.stored.length + s.change_graphs.length
            + (mods.map (fun mod =>
                ((modMethodPairs parse mod).filter (pairSurvives build commit)).length)).sum := by
  induction mods generalizing s with
  | nil =>
      exact ⟨hbuf, hstored, by simp⟩
  | cons mod t ih =>
      obtain ⟨h1, h2, h3⟩ := processMod_tally N parse build commit s mod hN hbuf hstored
      obtain ⟨g1, g2, g3⟩ := ih (processMod N parse build commit s mod) h1 h2
      rw [List.foldl_cons] at *
      refine ⟨g1, g2, ?_⟩
      rw [g3, h3, List.map_cons, List.sum_cons]
      omega

/-- C2 (amended): within one commit task with flush threshold N of at least
one and K surviving pairs, exactly the ceiling of K over N artifacts are
stored, and when K is positive the last stored artifact holds K mod N
graphs, or N graphs when K mod N is zero.  (The claim as written quantifies
over a whole worker lifetime; the counterexample shows that fails, because
the buffer is per commit task.) -/
theorem task_flush_count_correct (N : Nat) (parse : Parse) (build : Builder)
    (commit : Commit) (hN : 1 ≤ N) :
    (get_commit_change_graphs N parse build commit).stored.length
        = (commitSurvivors parse build commit + N - 1) / N
      ∧ (0 < commitSurvivors parse build commit →
          ((get_commit_change_graphs N parse build commit).stored.getLast?).map
              List.length
            = some (if commitSurvivors parse build commit % N = 0 then N
                    else commitSurvivors parse build commit % N)) := by
  set K := commitSurvivors parse build commit with hKdef
  set s0 : TaskState :=
    { change_graphs := [], stored := [],
      logs := [LogEvent.lookingAtCommit commit.hash], builderCalls := [] } with hs0
  obtain ⟨hbuf, hstored, hm⟩ := processMods_tally N parse build commit
    commit.modifications s0 hN (by simp [hs0]; omega) (by simp [hs0])
  set s1 := commit.modifications.foldl (processMod N parse build commit) s0 with hs1
  have hK : N * s1.stored.length + s1.change_graphs.length = K := by
    rw [hm]
    simp [hs0, hKdef, commitSurvivors]
  have hfinal : get_commit_change_graphs N parse build commit
      = (if s1.change_graphs = [] then s1
         else
          { s1 with
            change_graphs := [],
            stored := s1.stored ++ [s1.change_graphs],
            logs := s1.logs ++ [LogEvent.storingGraphs s1.change_graphs.length,
              LogEvent.storingGraphsFinished] }) := rfl
  by_cases hb0 : s1.change_graphs = []
  · rw [hfinal, if_pos hb0]
    have hlen0 : s1.change_graphs.length = 0 := by rw [hb0]; rfl
    have hKst : K = N * s1.stored.length := by omega
    constructor
    · have h1 : K + N - 1 = N * s1.stored.length + (N - 1) := by omega
      rw [h1, Nat.mul_add_div (by omega), Nat.div_eq_of_lt (by omega)]
      omega
    · intro hKpos
      have hstne : s1.stored ≠ [] := by
        intro hemp
        rw [hemp] at hKst
        simp at hKst
        omega
      have hmod : K % N = 0 := by
        rw [hKst]
        exact Nat.mul_mod_right N s1.stored.length
      rw [hmod, if_pos rfl, List.getLast?_eq_getLast s1.stored hstne]
      simp [hstored _ (List.getLast_mem hstne)]
  · rw [hfinal, if_neg hb0]
    have hlenpos : 0 < s1.change_graphs.length := List.length_pos.mpr hb0
    constructor
    · have h1 : K + N - 1 = N * s1.stored.length + (s1.change_graphs.length + N - 1) := by
        omega
      rw [show ({ s1 with
            change_graphs := [],
            stored := s1.stored ++ [s1.change_graphs],
            logs := s1.logs ++ [LogEvent.storingGraphs s1.change_graphs.length,
              LogEvent.storingGraphsFinished] } : TaskState).stored
          = s1.stored ++ [s1.change_graphs] from rfl]
      have h2 : (s1.change_graphs.length + N - 1) / N = 1 :=
        Nat.div_eq_of_lt_le (by omega) (by omega)
      rw [List.length_append, List.length_singleton, h1,
        Nat.mul_add_div (by omega), h2]
    · intro hKpos
      rw [show ({ s1 with
            change_graphs := [],
            stored := s1.stored ++ [s1.change_graphs],
            logs := s1.logs ++ [LogEvent.storingGraphs s1.change_graphs.length,
              LogEvent.storingGraphsFinished] } : TaskState).stored
          = s1.stored ++ [s1.change_graphs] from rfl]
      rw [List.getLast?_concat]
      have hmod : K % N = s1.change_graphs.length := by
        have : K = N * s1.stored.length + s1.change_graphs.length := hK.symm
        rw [this, Nat.mul_add_mod, Nat.mod_eq_of_lt hbuf]
      rw [hmod, if_neg (by omega)]
      simp

/-- C2 amended-claim witness: with threshold 2, the example commit with one
surviving pair stores one artifact whose single graph count equals 1 mod 2. -/
theorem task_flush_count_correct_witness :
    1 ≤ 2
      ∧ ((get_commit_change_graphs 2 parseEx buildOk commitEx).stored.length
          = (commitSurvivors parseEx buildOk commitEx + 2 - 1) / 2
        ∧ (0 < commitSurvivors parseEx buildOk commitEx →
            ((get_commit_change_graphs 2 parseEx buildOk commitEx).stored.getLast?).map
                List.length
              = some (if commitSurvivors parseEx buildOk commitEx % 2 = 0 then 2
                      else commitSurvivors parseEx buildOk commitEx % 2))) :=
  ⟨by decide, task_flush_count_correct 2 parseEx buildOk commitEx (by decide)⟩

/-! ## Builder failure isolation (claim C4) -/

/-- C4: a builder failure on one matched pair is caught inside the task; the
only effects of the failing pair are the traced builder invocation and an
error diagnostic carrying the repository path, the commit hash, the
qualified method name and the source line of the old method; the buffer and
the stored artifacts are untouched by the failing pair, and the remaining
pairs of the commit are processed from exactly that state, so the failure
never escapes the pair loop. -/
theorem builder_failure_logged_and_isolated (N : Nat) (build : Builder)
    (commit : Commit) (s : TaskState) (l1 l2 : List (Method × Method))
    (om nm : Method) (e : String)
    (hpass : pairFilter om nm = true)
    (hfail : build (om.get_source.getD "") (nm.get_source.getD "")
        (mkRepoInfo commit om nm) = Except.error e) :
    processPairs N build commit s (l1 ++ (om, nm) :: l2)
      = processPairs N build commit
          { processPairs N build commit s l1 with
            builderCalls := (processPairs N build commit s l1).builderCalls
              ++ [(om.get_source.getD "", nm.get_source.getD "")],
            logs := (processPairs N build commit s l1).logs
              ++ [LogEvent.unableToBuild commit.repo.path commit.hash om.full_name
                  om.ast.lineno] } l2 := by
  unfold processPairs
  rw [List.foldl_append, List.foldl_cons]
  congr 1
  simp [processPair, hpass, hfail]

/-- C4 witness: three matched pairs, with a builder that raises exactly on
the second; the first and third pairs still produce buffered graphs, and
the diagnostic for the second pair is in the log. -/
theorem builder_failure_logged_and_isolated_witness :
    pairFilter mG1 mG2 = true
      ∧ buildSel (mG1.get_source.getD "") (mG2.get_source.getD "")
          (mkRepoInfo commitEx mG1 mG2) = Except.error "boom"
      ∧ (processPairs 300 buildSel commitEx emptyTask
            ([(mF1, mF2)] ++ (mG1, mG2) :: [(mF1, mF2)])).change_graphs.length = 2
      ∧ LogEvent.unableToBuild commitEx.repo.path commitEx.hash mG1.full_name
            mG1.ast.lineno
          ∈ (processPairs 300 buildSel commitEx emptyTask
              ([(mF1, mF2)] ++ (mG1, mG2) :: [(mF1, mF2)])).logs := by
  refine ⟨by decide, by rfl, ?_, ?_⟩
  · rw [builder_failure_logged_and_isolated 300 buildSel commitEx emptyTask
      [(mF1, mF2)] [(mF1, mF2)] mG1 mG2 "boom" (by decide) (by rfl)]
    decide
  · rw [builder_failure_logged_and_isolated 300 buildSel commitEx emptyTask
      [(mF1, mF2)] [(mF1, mF2)] mG1 mG2 "boom" (by decide) (by rfl)]
    decide

end Traverse
